import Mathlib

/-!
Verification of the on-device translation core of the `my-apps-exhibit`
repository: the SMALL100 tokenizer (subword segmentation, vocabulary and
language-token tables), the beam-search decoding engine (softmax, top-k
candidate selection, pruning, final selection), the model-file downloader
(retry logic) and the IndexedDB-backed model storage.

The TypeScript sources are embedded shallowly: JS strings become `List Char`,
JS numbers used as token ids become `Nat`, probabilities and scores become `ℚ`
(exact arithmetic standing in for floats), fallible code returns
`Except`/`Option`, and the stateful classes become explicit state passing.
`Math.exp` and `Math.log` are black-box float primitives and are taken as
function parameters of the embedding.  JS `Array.prototype.sort` with a
comparator is a stable sort; it is modelled with `List.insertionSort`, which
is stable and produces the same list for the total preorders used here.
-/

namespace SmallTranslation

/-! ### Vocabulary and SentencePiece-style segmentation (tokenizer file, `SimpleSentencePieceProcessor`) -/

/-- A vocabulary as parsed from `vocab.json`: an ordered list of
(token string, id) bindings.  JSON objects have distinct keys. -/
abbrev Vocab : Type := List (List Char × Nat)

/-- The SentencePiece sentinel character `SPIECE_UNDERLINE`. -/
def sentinel : Char := '▁'

/-- The literal `"<unk>"` token pushed by the segmenter for unknown characters. -/
def unkTok : List Char := "<unk>".toList

/-- JS `this.vocab.has(token)` / `this.encoder[token] !== undefined` style lookup:
the id bound to a token string, if any (first binding wins; JSON keys are unique). -/
def vocabFind (V : Vocab) (t : List Char) : Option Nat :=
  (V.find? (fun e => e.1 = t)).map (fun e => e.2)

/-- JS `this.decoder[id]`: the decoder object is built by iterating the vocab
entries in order and assigning `decoder[id] = token`, so for a duplicated id the
last binding wins; modelled by searching the reversed list. -/
def vocabIdFind (V : Vocab) (id : Nat) : Option (List Char) :=
  (V.reverse.find? (fun e => e.2 = id)).map (fun e => e.1)

/-- `SimpleSentencePieceProcessor.normalize`: prepend the sentinel and replace
every literal space by the sentinel. -/
def spNormalize (text : List Char) : List Char :=
  sentinel :: text.map (fun c => if c = ' ' then sentinel else c)

/-- The inner loop of `SimpleSentencePieceProcessor.tokenize`: try candidate
lengths `n, n-1, …, 1`; return the first length whose `text.slice(i, i+len)`
is a vocabulary key. -/
def matchLen (V : Vocab) (s : List Char) : Nat → Option Nat
  | 0 => none
  | n + 1 => if (vocabFind V (s.take (n + 1))).isSome then some (n + 1) else matchLen V s n

/-- `SimpleSentencePieceProcessor.tokenize`, greedy longest-match scan with
maximum candidate length 20.  `fuel` bounds the recursion; it is called with
`fuel = s.length`, which suffices because every step consumes at least one
character.  When a match of length `k ≥ 1` is found the scan advances by `k`
(`(c :: rest).drop k = rest.drop (k - 1)`); otherwise it emits the single
character when it is a vocabulary key and `"<unk>"` when it is not, advancing
by one. -/
def spTokenizeAux (V : Vocab) : Nat → List Char → List (List Char)
  | 0, _ => []
  | _, [] => []
  | fuel + 1, c :: rest =>
    match matchLen V (c :: rest) (min (c :: rest).length 20) with
    | some k => (c :: rest).take k :: spTokenizeAux V fuel (rest.drop (k - 1))
    | none =>
      (if (vocabFind V [c]).isSome then [c] else unkTok) :: spTokenizeAux V fuel rest

def spTokenize (V : Vocab) (s : List Char) : List (List Char) :=
  spTokenizeAux V s.length s

/-- `SimpleSentencePieceProcessor.encode(text, "str")`: normalize, then segment. -/
def spEncodeStr (V : Vocab) (text : List Char) : List (List Char) :=
  spTokenize V (spNormalize text)

/-- JS `String.prototype.trim` whitespace test (restricted to the ASCII
whitespace characters that can occur here). -/
def isJsWhitespace (c : Char) : Bool :=
  c = ' ' || c = '\t' || c = '\n' || c = '\r'

/-- JS `s.trim()`. -/
def jsTrim (s : List Char) : List Char :=
  ((s.dropWhile isJsWhitespace).reverse.dropWhile isJsWhitespace).reverse

/-- JS `s.replace(new RegExp(SPIECE_UNDERLINE, "g"), " ")`. -/
def jsReplaceSentinel (s : List Char) : List Char :=
  s.map (fun c => if c = sentinel then ' ' else c)

/-- `SimpleSentencePieceProcessor.decode` on token strings: join, map the
sentinel back to a space, and trim. -/
def spDecode (tokens : List (List Char)) : List Char :=
  jsTrim (jsReplaceSentinel tokens.flatten)

/-! ### SMALL100Tokenizer: language-token tables and id conversion -/

/-- `FAIRSEQ_LANGUAGE_CODES["m2m100"]`, the fixed ordered list of the 100
supported language codes. -/
def fairseqLanguageCodes : List String :=
  ["af", "am", "ar", "ast", "az", "ba", "be", "bg", "bn", "br", "bs", "ca",
   "ceb", "cs", "cy", "da", "de", "el", "en", "es", "et", "fa", "ff", "fi",
   "fr", "fy", "ga", "gd", "gl", "gu", "ha", "he", "hi", "hr", "ht", "hu",
   "hy", "id", "ig", "ilo", "is", "it", "ja", "jv", "ka", "kk", "km", "kn",
   "ko", "lb", "lg", "ln", "lo", "lt", "lv", "mg", "mk", "ml", "mn", "mr",
   "ms", "my", "ne", "nl", "no", "ns", "oc", "or", "pa", "pl", "ps", "pt",
   "ro", "ru", "sd", "si", "sk", "sl", "so", "sq", "sr", "ss", "su", "sv",
   "sw", "ta", "th", "tl", "tn", "tr", "uk", "ur", "uz", "vi", "wo", "xh",
   "yi", "yo", "zh", "zu"]

/-- `getLangToken(lang)`: the synthetic token string `__lang__`. -/
def langTokenChars (code : String) : List Char :=
  '_' :: '_' :: (code.toList ++ ['_', '_'])

/-- Helper for `buildLanguageTokenMappings`: walk the code list carrying the
running index `j`, returning `N + j` for the first code whose token equals `t`. -/
def langLookupAux (N : Nat) : List String → Nat → List Char → Option Nat
  | [], _, _ => none
  | c :: cs, j, t =>
    if langTokenChars c = t then some (N + j) else langLookupAux N cs (j + 1) t

/-- `this.langTokenToId[token]` where language id `i` of the table is
`encoderSize + i`. -/
def langTokenToId (encoderSize : Nat) (tok : List Char) : Option Nat :=
  langLookupAux encoderSize fairseqLanguageCodes 0 tok

/-- Helper for the inverse table `idToLangToken`. -/
def langRevLookupAux (N : Nat) : List String → Nat → Nat → Option (List Char)
  | [], _, _ => none
  | c :: cs, j, i =>
    if N + j = i then some (langTokenChars c) else langRevLookupAux N cs (j + 1) i

/-- `this.idToLangToken[id]`. -/
def idToLangToken (encoderSize : Nat) (id : Nat) : Option (List Char) :=
  langRevLookupAux encoderSize fairseqLanguageCodes 0 id

/-- `getLangId(lang)` of `SMALL100Tokenizer` (`encoderSize = Object.keys(encoder).length`). -/
def getLangId (V : Vocab) (code : String) : Option Nat :=
  langTokenToId V.length (langTokenChars code)

/-- `SMALL100Tokenizer.convertTokenToId`: language tokens resolve through the
language table (checked with `!== undefined`), then the base vocabulary is
consulted with `this.encoder[token] || this.unkTokenId` — the JS `||` sends
both a missing token and a token whose id is the falsy value `0` to `unkId`. -/
def convertTokenToId (V : Vocab) (unkId : Nat) (token : List Char) : Nat :=
  match langTokenToId V.length token with
  | some i => i
  | none =>
    match vocabFind V token with
    | some v => if v ≠ 0 then v else unkId
    | none => unkId

/-- `SMALL100Tokenizer.convertIdToToken`: `if (this.idToLangToken[index])`
(language token strings are nonempty hence truthy), then
`this.decoder[index] || "<unk>"` — an empty token string would be falsy. -/
def convertIdToToken (V : Vocab) (id : Nat) : List Char :=
  match idToLangToken V.length id with
  | some t => t
  | none =>
    match vocabIdFind V id with
    | some tok => if tok ≠ [] then tok else unkTok
    | none => unkTok

/-- The keys of the `specialTokens` record of `SMALL100Tokenizer`
(the values can be remapped by the config, the keys cannot). -/
def specialTokenStrings : List (List Char) :=
  ["<s>".toList, "</s>".toList, "<pad>".toList, "<unk>".toList]

/-- `SMALL100Tokenizer.isSpecialToken`: a registered special-token string, or a
token shaped like a language tag (`startsWith "__" && endsWith "__"`). -/
def isSpecialToken (t : List Char) : Bool :=
  specialTokenStrings.contains t ||
    (t.take 2 = ['_', '_'] && t.reverse.take 2 = ['_', '_'])

/-- `SMALL100Tokenizer.encode`: segment the text and convert every token to an
id (with the default `unkTokenId = 3`).  No prefix or suffix tokens are added. -/
def smEncode (V : Vocab) (text : List Char) : List Nat :=
  (spEncodeStr V text).map (convertTokenToId V 3)

/-- `SMALL100Tokenizer.tokenize`: the encoded ids wrapped in a length-1 outer
batch list (`{ input_ids: [tokenIds] }`).  No prefix or suffix tokens are added. -/
def smTokenize (V : Vocab) (text : String) : List (List Nat) :=
  [smEncode V text.toList]

/-- `SMALL100Tokenizer.decode`: map ids back to token strings, blank out
special tokens when `skipSpecialTokens` is set, drop blanks, then apply the
SentencePiece decode (join, sentinel → space, trim). -/
def smDecode (V : Vocab) (tokenIds : List Nat) (skipSpecialTokens : Bool) : List Char :=
  spDecode
    ((tokenIds.map (fun id =>
        let token := convertIdToToken V id
        if skipSpecialTokens && isSpecialToken token then [] else token)).filter
      (fun t => t ≠ []))

/-- `SMALL100Tokenizer.buildInputsWithSpecialTokens` for a single sequence:
`prefixTokens ++ tokenIds0 ++ suffixTokens` (without the prefix when it is
empty).  This method exists on the class but is never invoked by `tokenize`
or `encode`. -/
def buildInputsWithSpecialTokens (preTokens sufTokens tokenIds0 : List Nat) : List Nat :=
  if preTokens = [] then tokenIds0 ++ sufTokens else preTokens ++ tokenIds0 ++ sufTokens

/-- `SMALL100Tokenizer.setLangSpecialTokens(srcLang)`: `curLangId` becomes the
language table entry for `__srcLang__` (JS `undefined`, modelled `none`, for an
unknown code), `prefixTokens = [curLangId]` and `suffixTokens = [eosTokenId]`.
Returned as the pair (curLangId, suffixTokens). -/
def setLangSpecialTokens (V : Vocab) (srcLang : String) (eosTokenId : Nat) :
    Option Nat × List Nat :=
  (getLangId V srcLang, [eosTokenId])

/-- The vocabulary of the end-to-end scenario of the specification. -/
def demoVocab : Vocab :=
  [("<pad>".toList, 0), ("</s>".toList, 1), ("<s>".toList, 2),
   ("<unk>".toList, 3), ("▁hi".toList, 4), ("▁there".toList, 5)]

/-! ### TranslationSystem.softmax (both variants) -/

/-- The max-logit loop of `softmax`: starts from `array[0]` and folds `max`
over the rest (for the second variant, `Math.max(...array)` agrees on
nonempty input). -/
def maxLogit (x : ℚ) (xs : List ℚ) : ℚ :=
  xs.foldl max x

/-- The exponential loop of `softmax`: `exp(array[i] - maxLogit)` for every
entry.  `e` stands for the black-box float primitive `Math.exp`. -/
def expVals (e : ℚ → ℚ) : List ℚ → List ℚ
  | [] => []
  | x :: xs => (x :: xs).map (fun v => e (v - maxLogit x xs))

/-- `sumExps` of `softmax`. -/
def expSum (e : ℚ → ℚ) (array : List ℚ) : ℚ :=
  (expVals e array).sum

/-- `TranslationSystem.softmax`, first variant (with fallback): empty input
returns an empty vector; when `sumExps` is zero the uniform value
`1 / array.length` is written into every slot (a non-finite `sumExps` cannot
arise in exact arithmetic, so the JS guard `sumExps === 0 || !isFinite(sumExps)`
reduces to the zero test); otherwise every exponential is divided by the sum. -/
def softmax (e : ℚ → ℚ) (array : List ℚ) : List ℚ :=
  match array with
  | [] => []
  | x :: xs =>
    if expSum e (x :: xs) = 0 then
      (x :: xs).map (fun _ => 1 / ((x :: xs).length : ℚ))
    else
      (expVals e (x :: xs)).map (fun v => v / expSum e (x :: xs))

/-- `TranslationSystem.softmax`, second variant (without the fallback branch):
every exponential is divided by `sumExps` unconditionally. -/
def softmaxNoFallback (e : ℚ → ℚ) (array : List ℚ) : List ℚ :=
  (expVals e array).map (fun v => v / expSum e array)

/-! ### TranslationSystem.getTopK, candidate selection, pruning, final selection -/

/-- Descending order on (token id, probability) pairs: the JS comparator
`(a, b) => b.probability - a.probability`. -/
def probGe (x y : Nat × ℚ) : Prop := y.2 ≤ x.2

instance : DecidableRel probGe := fun x y =>
  inferInstanceAs (Decidable (y.2 ≤ x.2))

instance : IsTotal (Nat × ℚ) probGe := ⟨fun a b => le_total b.2 a.2⟩

instance : IsTrans (Nat × ℚ) probGe := ⟨fun _ _ _ h1 h2 => le_trans h2 h1⟩

/-- `TranslationSystem.getTopK`: pair every probability with its index, sort by
probability descending (a stable sort, modelled by insertion sort) and keep the
first `k`. -/
def getTopK (probabilities : List ℚ) (k : Nat) : List (Nat × ℚ) :=
  (List.insertionSort probGe probabilities.enum).take k

/-- The candidate set actually used per beam by the first `translate` variant:
`getTopK(probabilities, numBeams)` with the `if (probability === 0) continue`
filter. -/
def candidateSet (probabilities : List ℚ) (numBeams : Nat) : List (Nat × ℚ) :=
  (getTopK probabilities numBeams).filter (fun c => c.2 ≠ 0)

/-- The candidate set described by the specification sentence: top `2K`
candidates excluding probabilities below an epsilon of `1e-9`
(`mkRat 1 1000000000`).  Written from the spec, for comparison against
`candidateSet`. -/
def candidateSetSpec (probabilities : List ℚ) (k : Nat) : List (Nat × ℚ) :=
  (getTopK probabilities (2 * k)).filter (fun c => mkRat 1 1000000000 ≤ c.2)

/-- A beam of the first `translate` variant: token ids so far, cumulative
log-probability score, completed flag. -/
structure Beam where
  tokens : List Nat
  score : ℚ
  completed : Bool
deriving DecidableEq

/-- A beam of the second `translate` variant (no completed flag). -/
structure Beam2 where
  tokens : List Nat
  score : ℚ
deriving DecidableEq

/-- Descending order on beams: the JS comparator `(a, b) => b.score - a.score`. -/
def beamGe (x y : Beam) : Prop := y.score ≤ x.score

instance : DecidableRel beamGe := fun x y =>
  inferInstanceAs (Decidable (y.score ≤ x.score))

instance : IsTotal Beam beamGe := ⟨fun a b => le_total b.score a.score⟩

instance : IsTrans Beam beamGe := ⟨fun _ _ _ h1 h2 => le_trans h2 h1⟩

def beamGe2 (x y : Beam2) : Prop := y.score ≤ x.score

instance : DecidableRel beamGe2 := fun x y =>
  inferInstanceAs (Decidable (y.score ≤ x.score))

instance : IsTotal Beam2 beamGe2 := ⟨fun a b => le_total b.score a.score⟩

instance : IsTrans Beam2 beamGe2 := ⟨fun _ _ _ h1 h2 => le_trans h2 h1⟩

/-- JS `array.sort((a, b) => b.score - a.score)` on beams (stable). -/
def sortBeams (l : List Beam) : List Beam :=
  List.insertionSort beamGe l

def sortBeams2 (l : List Beam2) : List Beam2 :=
  List.insertionSort beamGe2 l

/-- End-of-step pruning of the first `translate` variant:
`nextBeamsAccumulator.sort(desc)`, then `.filter(b => !b.completed)`,
then `.slice(0, numBeams)`. -/
def pruneBeams (nextBeamsAccumulator : List Beam) (numBeams : Nat) : List Beam :=
  ((sortBeams nextBeamsAccumulator).filter (fun b => !b.completed)).take numBeams

/-- End-of-step pruning of the second `translate` variant:
`nextBeams.sort(desc).slice(0, numBeams)`. -/
def pruneBeams2 (nextBeams : List Beam2) (numBeams : Nat) : List Beam2 :=
  (sortBeams2 nextBeams).take numBeams

/-- Final selection of the first `translate` variant:
`allCandidates = [...completedSequences, ...beams.filter(b => !b.completed)]`,
sorted by score descending; the best sequence is `allCandidates[0]?.tokens`
(`undefined`, modelled `none`, exactly when there are no candidates — a JS
token array is truthy even when empty). -/
def finalSelect (completedSequences beams : List Beam) : Option (List Nat) :=
  ((sortBeams (completedSequences ++ beams.filter (fun b => !b.completed))).head?).map
    Beam.tokens

/-- Final selection of the second `translate` variant:
`completedSequences.sort(desc)[0]?.tokens || beams.sort(desc)[0]?.tokens` —
the best completed sequence when any exists (its token array being truthy),
otherwise the best still-active beam. -/
def finalSelect2 (completedSequences beams : List Beam2) : Option (List Nat) :=
  match (sortBeams2 completedSequences).head? with
  | some b => some b.tokens
  | none => ((sortBeams2 beams).head?).map Beam2.tokens

/-! ### The beam-search loop of the first `translate` variant -/

/-- The beam-search state: active beams and the completed sequences collected
so far. -/
structure BeamState where
  beams : List Beam
  completedSequences : List Beam
deriving DecidableEq

/-- The per-beam body of the first `translate` variant: run the model on the
beam history (`run`), slice the logits row of the last decoder position,
softmax it, take the top `numBeams` candidates, and for every candidate with
nonzero probability extend the beam, routing it to the completed pile when the
candidate is the eos id or the new length reaches `maxLength`.  `lg` stands
for the black-box float primitive `Math.log`; the result is the pair
(new active candidates, newly completed sequences) in discovery order. -/
def expandBeam (run : List Nat → List ℚ) (e lg : ℚ → ℚ)
    (vocabSize numBeams eosId maxLength : Nat) (beam : Beam) :
    List Beam × List Beam :=
  let logits := run beam.tokens
  let nextTokenLogits := (logits.drop ((beam.tokens.length - 1) * vocabSize)).take vocabSize
  let probabilities := softmax e nextTokenLogits
  (getTopK probabilities numBeams).foldl
    (fun acc c =>
      if c.2 = 0 then acc
      else
        let newTokens := beam.tokens ++ [c.1]
        let newScore := beam.score + lg c.2
        if c.1 = eosId || maxLength ≤ newTokens.length then
          (acc.1, acc.2 ++ [⟨newTokens, newScore, true⟩])
        else
          (acc.1 ++ [⟨newTokens, newScore, false⟩], acc.2))
    ([], [])

/-- One iteration of the beam-search loop body: expand every active beam
(an already-completed beam would be passed through unchanged), then prune the
accumulator and append the newly completed sequences. -/
def beamStep (run : List Nat → List ℚ) (e lg : ℚ → ℚ)
    (vocabSize numBeams eosId maxLength : Nat) (st : BeamState) : BeamState :=
  let folded := st.beams.foldl
    (fun (acc : List Beam × List Beam) beam =>
      if beam.completed then (acc.1 ++ [beam], acc.2)
      else
        let ex := expandBeam run e lg vocabSize numBeams eosId maxLength beam
        (acc.1 ++ ex.1, acc.2 ++ ex.2))
    ([], [])
  { beams := pruneBeams folded.1 numBeams
    completedSequences := st.completedSequences ++ folded.2 }

/-- The `for (let step = 0; step < maxLength; step++)` loop with its two early
exits: all active beams completed, or no beams and no completed sequences after
the first step.  `fuel` counts the remaining steps (initially `maxLength`) and
`step` the current index. -/
def beamLoop (run : List Nat → List ℚ) (e lg : ℚ → ℚ)
    (vocabSize numBeams eosId maxLength : Nat) :
    Nat → Nat → BeamState → BeamState
  | _, 0, st => st
  | step, fuel + 1, st =>
    if st.beams.all (fun b => b.completed) then st
    else if st.beams = [] && st.completedSequences = [] && decide (0 < step) then st
    else
      beamLoop run e lg vocabSize numBeams eosId maxLength (step + 1) fuel
        (beamStep run e lg vocabSize numBeams eosId maxLength st)

/-- The whole beam search of the first `translate` variant, seeded with the
single beam `{tokens: [decoderStartTokenId], score: 0, completed: false}`. -/
def runBeamSearch (run : List Nat → List ℚ) (e lg : ℚ → ℚ)
    (vocabSize numBeams eosId maxLength decoderStartTokenId : Nat) : BeamState :=
  beamLoop run e lg vocabSize numBeams eosId maxLength 0 maxLength
    ⟨[⟨[decoderStartTokenId], 0, false⟩], []⟩

/-! ### ModelDownloader.downloadFile (both variants) -/

/-- The aggregated terminal error of the retrying `downloadFile`. -/
def aggregatedError (filename : String) (maxRetries : Nat) (lastError : String) : String :=
  "Failed to download " ++ filename ++ " after " ++ toString maxRetries ++
    " attempts. Last error: " ++ lastError

/-- The `while (attempt < maxRetries)` retry loop of the part_005
`downloadFile`.  The environment is modelled by `attempts`, giving the outcome
of the fetch on each attempt index (transport errors and non-ok HTTP statuses
both surface as thrown errors).  `fuel` equals `maxRetries - attempt`, so
running out of fuel is exactly the loop exit, whose unreachable trailing
`throw` names the file.  The 1-second pause between attempts has no effect on
the returned value and is not modelled. -/
def downloadAttempts (attempts : Nat → Except String (List Nat)) (filename : String)
    (maxRetries : Nat) : Nat → Nat → Except String (List Nat)
  | _, 0 =>
    .error ("Exhausted retries for " ++ filename ++
      " without success or throwing an error.")
  | attempt, fuel + 1 =>
    match attempts attempt with
    | .ok buffer => .ok buffer
    | .error msg =>
      if maxRetries ≤ attempt + 1 then .error (aggregatedError filename maxRetries msg)
      else downloadAttempts attempts filename maxRetries (attempt + 1) fuel

/-- `ModelDownloader.downloadFile` of part_005 (retry variant), with its
default `maxRetries = 3` supplied by callers. -/
def downloadFile (attempts : Nat → Except String (List Nat)) (filename : String)
    (maxRetries : Nat) : Except String (List Nat) :=
  downloadAttempts attempts filename maxRetries 0 maxRetries

/-- `ModelDownloader.downloadFile` of `src/lib/model-downloader.ts`: a single
fetch attempt whose error is logged and rethrown unchanged. -/
def downloadFileOnce (attempts : Nat → Except String (List Nat))
    (_filename : String) : Except String (List Nat) :=
  attempts 0

/-! ### ModelStorage (IndexedDB object store with keyPath "filename") -/

/-- A record of the `models` object store: both `saveModel` variants put
`{filename, data/buffer, timestamp, size}` keyed by `filename`. -/
structure StoredModel where
  filename : String
  data : List Nat
  timestamp : Nat
  size : Nat
deriving DecidableEq

/-- The shape returned by `getModelInfo` / `getAllFilesInfo`. -/
structure FileStatus where
  filename : String
  size : Nat
  timestamp : Nat
deriving DecidableEq

/-- `ModelStorage.saveModel`: `store.put(modelData)` against a store with
`keyPath: "filename"` replaces any record with the same key and inserts the
new record; `size` is `buffer.byteLength` and `timestamp` is `Date.now()`
(passed in as `now`). -/
def saveModel (store : List StoredModel) (filename : String) (buffer : List Nat)
    (now : Nat) : List StoredModel :=
  (store.filter (fun r => r.filename ≠ filename)) ++
    [⟨filename, buffer, now, buffer.length⟩]

/-- `ModelStorage.getModel`: `store.get(filename)`, resolving to the stored
bytes or `null`. -/
def getModel (store : List StoredModel) (filename : String) : Option (List Nat) :=
  (store.find? (fun r => r.filename = filename)).map (fun r => r.data)

/-- `ModelStorage.getAllFilesInfo`: `store.getAll()` mapped to
`{filename, size, timestamp}`. -/
def getAllFilesInfo (store : List StoredModel) : List FileStatus :=
  store.map (fun r => ⟨r.filename, r.size, r.timestamp⟩)

/-- `ModelStorage.clearAll`: `store.clear()`. -/
def clearAll (_store : List StoredModel) : List StoredModel := []

/-! ### TranslationSystem state, clearCache and translate -/

/-- The fields of `config.json` used by `translate` and the error messages
(`lang_to_id` is read only for diagnostics). -/
structure TranslationConfig where
  vocabSize : Nat
  numBeams : Option Nat
  maxLength : Option Nat
  langToId : List String
deriving DecidableEq

/-- The mutable fields of `TranslationSystem` that the load lifecycle touches. -/
structure TranslationSystemState where
  isLoaded : Bool
  session : Option Nat
  tokenizer : Option Vocab
  config : Option TranslationConfig
  storage : List StoredModel

/-- The guard error thrown by `translate` when the model is not loaded. -/
def modelNotLoadedError : String :=
  "モデルが読み込まれていません。loadModel()を呼び出してください。"

/-- `TranslationSystem.clearCache`: clear the storage and null out the
session, tokenizer and config, resetting `isLoaded`. -/
def clearCache (s : TranslationSystemState) : TranslationSystemState :=
  { isLoaded := false
    session := none
    tokenizer := none
    config := none
    storage := clearAll s.storage }

/-- `TranslationSystem.isModelLoaded`. -/
def isModelLoaded (s : TranslationSystemState) : Bool :=
  s.isLoaded

/-- The successful tail of `TranslationSystem.loadModel`: the session,
tokenizer and config are installed and `isLoaded` becomes true. -/
def loadModelSuccess (s : TranslationSystemState) (session : Nat) (tokenizer : Vocab)
    (config : TranslationConfig) : TranslationSystemState :=
  { s with
    session := some session
    tokenizer := some tokenizer
    config := some config
    isLoaded := true }

def joinComma : List String → String
  | [] => ""
  | [x] => x
  | x :: xs => x ++ ", " ++ joinComma xs

/-- The unsupported-language error of `translate`, which enumerates
`Object.keys(this.config?.lang_to_id || {})`. -/
def langNotFoundError (kind lang : String) (config : TranslationConfig) : String :=
  kind ++ lang ++ " のトークンIDが見つかりません。利用可能な言語: " ++
    joinComma config.langToId

/-- `TranslationSystem.translate`, first variant: the not-loaded guard, the
source/target language id lookups (`setEosTokenId(srcLangId)` makes the eos id
used by the loop the source-language id, `setDecoderStartTokenId(tgtLangId)`
makes the seed token the target-language id), tokenization, the beam-search
loop with `numBeams = config.num_beams || 4` and
`maxLength = config.max_length || 200`, final selection, and decoding with
special tokens skipped.  `run` is the model-runner capability
(encoder ids → decoder ids → flat logits), `e` and `lg` stand for `Math.exp`
and `Math.log`. -/
def translate (s : TranslationSystemState) (run : List Nat → List Nat → List ℚ)
    (e lg : ℚ → ℚ) (text sourceLang targetLang : String) : Except String String :=
  if s.isLoaded = false || s.session.isNone || s.tokenizer.isNone || s.config.isNone then
    .error modelNotLoadedError
  else
    match s.tokenizer, s.config with
    | some V, some config =>
      match getLangId V sourceLang with
      | none => .error (langNotFoundError "ソース言語 " sourceLang config)
      | some srcLangId =>
        let inputIds := (smTokenize V text).headD []
        match getLangId V targetLang with
        | none => .error (langNotFoundError "ターゲット言語 " targetLang config)
        | some tgtLangId =>
          let numBeams := match config.numBeams with
            | some n => if n ≠ 0 then n else 4
            | none => 4
          let maxLength := match config.maxLength with
            | some n => if n ≠ 0 then n else 200
            | none => 200
          let final := runBeamSearch (run inputIds) e lg config.vocabSize numBeams
            srcLangId maxLength tgtLangId
          match finalSelect final.completedSequences final.beams with
          | none => .error "翻訳結果が生成されませんでした。"
          | some best => .ok (String.mk (smDecode V best true))
    | _, _ => .error modelNotLoadedError

/-! ### Concrete inputs used by the theorems below -/

/-- A vocabulary whose single-character tokens include every character of the
text `"h"` but not the sentinel. -/
def c2Vocab : Vocab :=
  [("h".toList, 1), ("<unk>".toList, 3), ("x".toList, 0), ("y".toList, 2)]

/-- A well-formed vocabulary covering every character of the normalized form
of `"hi there"` with nonzero ids on all of them. -/
def c2RoundVocab : Vocab :=
  [("<unk>".toList, 0), ("▁".toList, 1), ("h".toList, 2), ("i".toList, 3),
   ("t".toList, 4), ("e".toList, 5), ("r".toList, 6)]

def c3Probs : List ℚ := [mkRat 1 2, mkRat 1 4, mkRat 1 8, mkRat 1 8]

def c4Completed : List Beam2 := [⟨[9, 1], -5⟩]

def c4Active : List Beam2 := [⟨[9, 7], -1⟩]

def c4CompletedW : List Beam := [⟨[2, 1], -2, true⟩]

def c4ActiveW : List Beam := [⟨[2, 3], -1, false⟩]

def c7BeamsW : List Beam :=
  [⟨[2, 3], -1, false⟩, ⟨[2, 4], -3, false⟩, ⟨[2, 5], -2, false⟩]

/-- A fetch environment that fails on the first attempt and succeeds after. -/
def c8Attempts : Nat → Except String (List Nat)
  | 0 => .error "HTTP error! status: 500"
  | _ => .ok [42]

/-- A fetch environment in which every attempt fails, with distinct messages. -/
def c8AttemptsAllFail : Nat → Except String (List Nat)
  | 0 => .error "e0"
  | 1 => .error "e1"
  | _ => .error "e2"

/-! ## Theorems -/

/-! ### Storage lemmas and claims C1, C5, C9, C10 -/

theorem find?_filter_ne (l : List StoredModel) (f : String) :
    List.find? (fun r => r.filename = f) (l.filter (fun r => r.filename ≠ f)) = none := by
  apply List.find?_eq_none.mpr
  intro x hx
  simp only [List.mem_filter, decide_eq_true_eq] at hx
  simp [hx.2]

theorem filter_info_ne (l : List StoredModel) (f : String) :
    (getAllFilesInfo (l.filter (fun r => r.filename ≠ f))).filter
      (fun i => i.filename = f) = [] := by
  rw [List.filter_eq_nil_iff]
  intro x hx
  simp only [getAllFilesInfo, List.mem_map, List.mem_filter, decide_eq_true_eq] at hx
  obtain ⟨r, ⟨_, hne⟩, rfl⟩ := hx
  simp [hne]

theorem saveModel_filter_ne (store : List StoredModel) (f : String) (b : List Nat)
    (t : Nat) :
    (saveModel store f b t).filter (fun r => r.filename ≠ f) =
      store.filter (fun r => r.filename ≠ f) := by
  simp [saveModel, List.filter_append, List.filter_filter]

/-- C1: the claim says the encoder output is prefix ++ segmented ids ++ suffix
wrapped in a length-1 batch, concretely `[6, 4, 5, 1]` for `"hi there"` with
source `en` under the demo vocabulary.  Evaluating the code shows `tokenize`
returns only the segmented ids `[[4, 5]]`: it never applies
`buildInputsWithSpecialTokens`, and under the fixed 100-language FAIRSEQ table
the `en` id is 24 (= 6 + 18), so even the unused composition would give
`[24, 4, 5, 1]`, not `[6, 4, 5, 1]`. -/
theorem c1_tokenize_drops_special_tokens :
    smTokenize demoVocab "hi there" = [[4, 5]]
  ∧ getLangId demoVocab "en" = some 24
  ∧ setLangSpecialTokens demoVocab "en" 1 = (some 24, [1])
  ∧ buildInputsWithSpecialTokens [24] [1] [4, 5] = [24, 4, 5, 1]
  ∧ smTokenize demoVocab "hi there" ≠ [[6, 4, 5, 1]] := by decide

/-- C5: the claim says every vocabulary token maps to its vocabulary id,
whatever that id is.  Evaluating `convertTokenToId` on the demo vocabulary
shows the token `"<pad>"`, whose vocabulary id is 0, is sent to the unknown id
3 by the falsy JS lookup `this.encoder[token] || this.unkTokenId`; nonzero-id
tokens and language tokens resolve as the claim says. -/
theorem c5_convertTokenToId_zero_id :
    vocabFind demoVocab ("<pad>".toList) = some 0
  ∧ convertTokenToId demoVocab 3 ("<pad>".toList) = 3
  ∧ convertTokenToId demoVocab 3 ("▁hi".toList) = 4
  ∧ convertTokenToId demoVocab 3 ("▁there".toList) = 5
  ∧ convertTokenToId demoVocab 3 ("__en__".toList) = 24 := by decide

/-- C9: saving two payloads under the same filename leaves the store with
`getModel` returning exactly the second payload and exactly one
`getAllFilesInfo` entry for that filename. -/
theorem c9_save_overwrites (store : List StoredModel) (filename : String)
    (b1 b2 : List Nat) (t1 t2 : Nat) :
    getModel (saveModel (saveModel store filename b1 t1) filename b2 t2) filename =
      some b2
  ∧ ((getAllFilesInfo (saveModel (saveModel store filename b1 t1) filename b2 t2)).filter
      (fun i => i.filename = filename)).length = 1 := by
  constructor
  · rw [getModel, saveModel, saveModel_filter_ne, List.find?_append, find?_filter_ne]
    simp
  · rw [saveModel, saveModel_filter_ne, getAllFilesInfo, List.map_append,
      List.filter_append]
    have h := filter_info_ne store filename
    rw [getAllFilesInfo] at h
    rw [h]
    simp

/-- C10: after `clearCache` the system reports not-loaded, the session,
tokenizer and config are nulled out, every `translate` call fails with the
model-not-loaded error, and a subsequent successful `loadModel` restores the
loaded state. -/
theorem c10_clearCache_not_loaded (s : TranslationSystemState)
    (run : List Nat → List Nat → List ℚ) (e lg : ℚ → ℚ) (text src tgt : String) :
    isModelLoaded (clearCache s) = false
  ∧ (clearCache s).session = none
  ∧ (clearCache s).tokenizer = none
  ∧ (clearCache s).config = none
  ∧ translate (clearCache s) run e lg text src tgt = .error modelNotLoadedError
  ∧ ∀ sess tok cfg, isModelLoaded (loadModelSuccess (clearCache s) sess tok cfg) = true := by
  refine ⟨rfl, rfl, rfl, rfl, ?_, fun _ _ _ => rfl⟩
  simp [translate, clearCache]

/-! ### Sorting lemmas and claims C3, C7, C4 -/

theorem pairwise_take_drop {α : Type} {r : α → α → Prop} {l : List α}
    (h : List.Pairwise r l) (k : Nat) :
    ∀ a ∈ l.take k, ∀ b ∈ l.drop k, r a b := by
  rw [← List.take_append_drop k l] at h
  exact (List.pairwise_append.mp h).2.2

theorem head_insertionSort_max {α : Type} (r : α → α → Prop) [DecidableRel r]
    [IsTotal α r] [IsTrans α r] (l : List α) (b : α)
    (h : (List.insertionSort r l).head? = some b) :
    b ∈ l ∧ ∀ x ∈ l, r b x := by
  have hperm := List.perm_insertionSort r l
  have hsort := List.sorted_insertionSort r l
  rcases hs : List.insertionSort r l with _ | ⟨c, cs⟩
  · rw [hs] at h
    cases h
  · rw [hs] at h hperm hsort
    obtain rfl : c = b := by simpa using h
    refine ⟨hperm.subset (List.mem_cons_self _ _), ?_⟩
    intro x hx
    rcases List.mem_cons.mp (hperm.symm.subset hx) with rfl | hxs
    · exact (IsTotal.total x x).elim id id
    · exact (List.sorted_cons.mp hsort).1 x hxs

theorem insertionSort_eq_nil_iff {α : Type} (r : α → α → Prop) [DecidableRel r]
    (l : List α) : List.insertionSort r l = [] ↔ l = [] := by
  constructor
  · intro h
    have hperm := List.perm_insertionSort r l
    rw [h] at hperm
    exact hperm.symm.eq_nil
  · rintro rfl
    rfl

/-- C3: the per-beam candidate set.  The claim says top `2K` with an `1e-9`
epsilon filter; the code (`getTopK(probabilities, numBeams)` plus the
`probability === 0` skip) takes the top `K` and excludes exactly the
zero-probability candidates.  `getTopK` is indeed a top-k selection: it is the
`k`-prefix of a sorted-descending permutation of the indexed probabilities,
its length is `min k n`, it is sorted non-increasing, and every dropped
candidate has probability at most that of every kept one. -/
theorem c3_topK_selection (probabilities : List ℚ) (k : Nat) :
    getTopK probabilities k = (List.insertionSort probGe probabilities.enum).take k
  ∧ (List.insertionSort probGe probabilities.enum).Perm probabilities.enum
  ∧ List.Sorted probGe (List.insertionSort probGe probabilities.enum)
  ∧ (getTopK probabilities k).length = min k probabilities.length
  ∧ List.Sorted probGe (getTopK probabilities k)
  ∧ (∀ a ∈ getTopK probabilities k,
      ∀ b ∈ (List.insertionSort probGe probabilities.enum).drop k, b.2 ≤ a.2)
  ∧ candidateSet probabilities k = (getTopK probabilities k).filter (fun c => c.2 ≠ 0) := by
  refine ⟨rfl, List.perm_insertionSort probGe _, List.sorted_insertionSort probGe _,
    ?_, ?_, ?_, rfl⟩
  · rw [getTopK, List.length_take, List.length_insertionSort, List.enum_length]
  · exact (List.sorted_insertionSort probGe _).sublist (List.take_sublist k _)
  · exact pairwise_take_drop (List.sorted_insertionSort probGe _) k

/-- C3 counterexample: with the distribution (1/2, 1/4, 1/8, 1/8) and beam
width K = 1 the code keeps only the single top candidate, while the claim's
top-`2K`-above-epsilon set has two members. -/
theorem c3_counterexample :
    candidateSet c3Probs 1 = [(0, mkRat 1 2)]
  ∧ candidateSetSpec c3Probs 1 = [(0, mkRat 1 2), (1, mkRat 1 4)]
  ∧ candidateSet c3Probs 1 ≠ candidateSetSpec c3Probs 1 := by decide

theorem c3_topK_selection_witness :
    (getTopK c3Probs 2).length = min 2 c3Probs.length :=
  (c3_topK_selection c3Probs 2).2.2.2.1

/-- C7: after each decoding step the retained active beam set has at most `K`
members, is sorted by non-increasing cumulative score, holds only
non-completed beams (first variant), and is the `K`-prefix of the sorted
candidates — every dropped candidate scores no higher than every retained one;
this holds for the pruning of both `translate` variants and hence for the
beams field after a full `beamStep`. -/
theorem c7_prune_topK (acc : List Beam) (next2 : List Beam2) (k : Nat)
    (run : List Nat → List ℚ) (e lg : ℚ → ℚ) (vs nb eos ml : Nat) (st : BeamState) :
    (pruneBeams acc k).length ≤ k
  ∧ List.Sorted beamGe (pruneBeams acc k)
  ∧ (∀ b ∈ pruneBeams acc k, b.completed = false)
  ∧ (∀ a ∈ pruneBeams acc k,
      ∀ b ∈ ((sortBeams acc).filter (fun b => !b.completed)).drop k, b.score ≤ a.score)
  ∧ (sortBeams acc).Perm acc
  ∧ (pruneBeams2 next2 k).length ≤ k
  ∧ List.Sorted beamGe2 (pruneBeams2 next2 k)
  ∧ (∀ a ∈ pruneBeams2 next2 k, ∀ b ∈ (sortBeams2 next2).drop k, b.score ≤ a.score)
  ∧ (sortBeams2 next2).Perm next2
  ∧ (beamStep run e lg vs nb eos ml st).beams.length ≤ nb
  ∧ List.Sorted beamGe (beamStep run e lg vs nb eos ml st).beams := by
  have hsorted1 : List.Sorted beamGe ((sortBeams acc).filter (fun b => !b.completed)) :=
    (List.sorted_insertionSort beamGe acc).filter _
  refine ⟨List.length_take_le k _, ?_, ?_, ?_, List.perm_insertionSort beamGe acc,
    List.length_take_le k _, ?_, ?_, List.perm_insertionSort beamGe2 next2, ?_, ?_⟩
  · exact hsorted1.sublist (List.take_sublist k _)
  · intro b hb
    have hb2 := List.mem_filter.mp ((List.take_sublist k _).mem hb)
    simpa using hb2.2
  · exact pairwise_take_drop hsorted1 k
  · exact (List.sorted_insertionSort beamGe2 next2).sublist (List.take_sublist k _)
  · exact pairwise_take_drop (List.sorted_insertionSort beamGe2 next2) k
  · exact List.length_take_le nb _
  · exact ((List.sorted_insertionSort beamGe _).filter _).sublist (List.take_sublist nb _)

theorem c7_prune_topK_witness :
    (pruneBeams c7BeamsW 2).length ≤ 2 :=
  (c7_prune_topK c7BeamsW [] 2 (fun _ => []) id id 0 0 0 0 ⟨[], []⟩).1

theorem finalSelect2_cases (c2 a2 : List Beam2) :
    (c2 = [] ∧ finalSelect2 c2 a2 = (sortBeams2 a2).head?.map Beam2.tokens) ∨
    (∃ b, (sortBeams2 c2).head? = some b ∧ finalSelect2 c2 a2 = some b.tokens) := by
  rcases hc : (sortBeams2 c2).head? with _ | ⟨b⟩
  · left
    refine ⟨(insertionSort_eq_nil_iff _ _).mp (List.head?_eq_none_iff.mp hc), ?_⟩
    simp only [finalSelect2, hc]
  · right
    refine ⟨b, rfl, ?_⟩
    simp only [finalSelect2, hc]

/-- C4: final selection.  In the first variant the returned sequence is a
maximal-score member of the union of the completed set and the still-active
non-completed beams, and `none` (the "no result produced" throw) happens
exactly when that union is empty.  In the second variant the completed pool is
preferred outright: when any completed sequence exists the result is the best
completed one (even if an active beam scores higher), and only with no
completed sequence is the best active beam returned; it throws exactly when
both pools are empty. -/
theorem c4_final_selection (completed active : List Beam) (c2 a2 : List Beam2) :
    (finalSelect completed active = none ↔
        completed ++ active.filter (fun b => !b.completed) = [])
  ∧ (∀ t, finalSelect completed active = some t →
      ∃ b ∈ completed ++ active.filter (fun b => !b.completed),
        b.tokens = t ∧ ∀ x ∈ completed ++ active.filter (fun b => !b.completed),
          x.score ≤ b.score)
  ∧ (finalSelect2 c2 a2 = none ↔ (c2 = [] ∧ a2 = []))
  ∧ (∀ t, finalSelect2 c2 a2 = some t → c2 ≠ [] →
      ∃ b ∈ c2, b.tokens = t ∧ ∀ x ∈ c2, x.score ≤ b.score)
  ∧ (∀ t, finalSelect2 c2 a2 = some t → c2 = [] →
      ∃ b ∈ a2, b.tokens = t ∧ ∀ x ∈ a2, x.score ≤ b.score) := by
  refine ⟨?_, ?_, ?_, ?_, ?_⟩
  · rw [finalSelect, Option.map_eq_none', List.head?_eq_none_iff, sortBeams,
      insertionSort_eq_nil_iff]
  · intro t ht
    rw [finalSelect, Option.map_eq_some'] at ht
    obtain ⟨b, hb, rfl⟩ := ht
    obtain ⟨hmem, hmax⟩ := head_insertionSort_max beamGe _ b hb
    exact ⟨b, hmem, rfl, hmax⟩
  · rcases finalSelect2_cases c2 a2 with ⟨rfl, heq⟩ | ⟨b, hb, heq⟩
    · rw [heq, Option.map_eq_none', List.head?_eq_none_iff, sortBeams2,
        insertionSort_eq_nil_iff]
      tauto
    · rw [heq]
      have hne : c2 ≠ [] := by
        rintro rfl
        simp [sortBeams2] at hb
      simp [hne]
  · intro t ht _
    rcases finalSelect2_cases c2 a2 with ⟨rfl, heq⟩ | ⟨b, hb, heq⟩
    · simp_all
    · rw [heq] at ht
      obtain rfl : b.tokens = t := by simpa using ht
      obtain ⟨hmem, hmax⟩ := head_insertionSort_max beamGe2 _ b hb
      exact ⟨b, hmem, rfl, hmax⟩
  · intro t ht hc2
    subst hc2
    rcases finalSelect2_cases ([] : List Beam2) a2 with ⟨_, heq⟩ | ⟨b, hb, heq⟩
    · rw [heq, Option.map_eq_some'] at ht
      obtain ⟨b, hb, rfl⟩ := ht
      obtain ⟨hmem, hmax⟩ := head_insertionSort_max beamGe2 _ b hb
      exact ⟨b, hmem, rfl, hmax⟩
    · simp [sortBeams2] at hb

/-- C4 counterexample: in the second variant, with one completed sequence of
score -5 and one active beam of score -1, the search returns the completed
sequence `[9, 1]` although the union contains the strictly higher-scoring
active beam `[9, 7]` — every union member with the returned tokens scores
below -1, so the returned sequence is not the highest-scoring of the union as
the claim states. -/
theorem c4_counterexample :
    finalSelect2 c4Completed c4Active = some [9, 1]
  ∧ Beam2.mk [9, 7] (-1) ∈ c4Completed ++ c4Active
  ∧ (∀ b ∈ c4Completed ++ c4Active, b.tokens = [9, 1] → b.score < -1) := by decide

theorem c4_final_selection_witness :
    ∃ b ∈ c4CompletedW ++ c4ActiveW.filter (fun b => !b.completed),
      b.tokens = [2, 3] ∧ ∀ x ∈ c4CompletedW ++ c4ActiveW.filter (fun b => !b.completed),
        x.score ≤ b.score :=
  (c4_final_selection c4CompletedW c4ActiveW [] []).2.1 [2, 3] (by decide)

/-! ### Softmax lemmas and claim C6 -/

theorem sum_map_div (l : List ℚ) (c : ℚ) :
    (l.map (fun v => v / c)).sum = l.sum / c := by
  induction l with
  | nil => simp
  | cons a l ih => simp [ih, add_div]

theorem expVals_nonneg (e : ℚ → ℚ) (hpos : ∀ x, 0 ≤ e x) (l : List ℚ) :
    ∀ v ∈ expVals e l, 0 ≤ v := by
  intro v hv
  rcases l with _ | ⟨x, xs⟩
  · simp [expVals] at hv
  · simp only [expVals, List.mem_map] at hv
    obtain ⟨u, _, rfl⟩ := hv
    exact hpos _

/-- C6: for every nonempty logits vector, and any nonnegative exponential
primitive, the softmax variant with fallback subtracts the maximum logit
before exponentiating (visible in `expVals`) and returns a probability vector
of entries in [0, 1] summing to exactly 1 in exact arithmetic; when the
exponential sum degenerates to zero it returns the uniform distribution
`1 / n` over all ids, and the variant without the fallback branch normalizes
the same way whenever the sum is nonzero. -/
theorem c6_softmax_stability (e : ℚ → ℚ) (logits : List ℚ) (hne : logits ≠ [])
    (hpos : ∀ x, 0 ≤ e x) :
    (softmax e logits).sum = 1
  ∧ (∀ p ∈ softmax e logits, 0 ≤ p ∧ p ≤ 1)
  ∧ (expSum e logits = 0 →
      softmax e logits = logits.map (fun _ => 1 / (logits.length : ℚ)))
  ∧ (expSum e logits ≠ 0 → (softmaxNoFallback e logits).sum = 1) := by
  rcases logits with _ | ⟨x, xs⟩
  · exact absurd rfl hne
  have hlen : (0 : ℚ) < ((x :: xs).length : ℚ) := by
    exact_mod_cast Nat.succ_pos xs.length
  have hnonneg := expVals_nonneg e hpos (x :: xs)
  have hsnn : 0 ≤ expSum e (x :: xs) := List.sum_nonneg hnonneg
  by_cases hs : expSum e (x :: xs) = 0
  · have huni : softmax e (x :: xs) = (x :: xs).map (fun _ => 1 / ((x :: xs).length : ℚ)) := by
      simp only [softmax, if_pos hs]
    have hsum : (softmax e (x :: xs)).sum = 1 := by
      rw [huni, List.map_const', List.sum_replicate, nsmul_eq_mul]
      field_simp
    refine ⟨hsum, ?_, fun _ => huni, fun h => absurd hs h⟩
    intro p hp
    rw [huni] at hp
    simp only [List.mem_map] at hp
    obtain ⟨u, _, rfl⟩ := hp
    constructor
    · positivity
    · rw [div_le_one hlen]
      exact_mod_cast Nat.succ_le_of_lt (Nat.succ_pos xs.length)
  · have hspos : 0 < expSum e (x :: xs) := lt_of_le_of_ne hsnn (Ne.symm hs)
    have hdiv : softmax e (x :: xs) =
        (expVals e (x :: xs)).map (fun v => v / expSum e (x :: xs)) := by
      simp only [softmax, if_neg hs]
    have hsum1 : (softmax e (x :: xs)).sum = 1 := by
      rw [hdiv, sum_map_div]
      exact div_self hs
    refine ⟨hsum1, ?_, fun h => absurd h hs, fun _ => ?_⟩
    · intro p hp
      rw [hdiv] at hp
      simp only [List.mem_map] at hp
      obtain ⟨v, hv, rfl⟩ := hp
      constructor
      · exact div_nonneg (hnonneg v hv) hsnn
      · rw [div_le_one hspos]
        exact List.single_le_sum hnonneg v hv
    · rw [softmaxNoFallback, sum_map_div]
      exact div_self hs

/-- C6 counterexample: the claim quantifies over every logits vector, but on
the empty vector (which the code handles explicitly, returning an empty
`Float32Array`) the returned vector sums to 0, not to 1 within the stated
1e-6 tolerance. -/
theorem c6_counterexample :
    softmax (fun _ => 1) [] = []
  ∧ ¬ (|(softmax (fun _ => 1) ([] : List ℚ)).sum - 1| ≤ mkRat 1 1000000) := by
  refine ⟨rfl, ?_⟩
  norm_num [softmax]

theorem c6_softmax_stability_witness :
    (softmax (fun _ => 1) [1, 2, 3]).sum = 1 :=
  (c6_softmax_stability (fun _ => (1 : ℚ)) [1, 2, 3] (by simp)
    (fun _ => zero_le_one)).1

/-! ### Downloader lemmas and claim C8 -/

theorem downloadAttempts_ok (attempts : Nat → Except String (List Nat))
    (filename : String) (maxRetries k : Nat) (b : List Nat)
    (hk : k < maxRetries) (hok : attempts k = .ok b)
    (hfail : ∀ j, j < k → ∃ m, attempts j = .error m) :
    ∀ fuel attempt, attempt + fuel = maxRetries → attempt ≤ k →
      downloadAttempts attempts filename maxRetries attempt fuel = .ok b := by
  intro fuel
  induction fuel with
  | zero => intro attempt h1 h2; omega
  | succ fuel ih =>
    intro attempt h1 h2
    rcases Nat.lt_or_ge attempt k with hlt | hge
    · obtain ⟨m, hm⟩ := hfail attempt hlt
      simp only [downloadAttempts, hm]
      rw [if_neg (by omega)]
      exact ih (attempt + 1) (by omega) (by omega)
    · have : attempt = k := by omega
      subst this
      simp only [downloadAttempts, hok]

theorem downloadAttempts_err (attempts : Nat → Except String (List Nat))
    (filename : String) (maxRetries : Nat) (lastMsg : String)
    (hall : ∀ j, j < maxRetries → ∃ m, attempts j = .error m)
    (hlast : attempts (maxRetries - 1) = .error lastMsg) :
    ∀ fuel attempt, attempt + fuel = maxRetries → attempt < maxRetries →
      downloadAttempts attempts filename maxRetries attempt fuel =
        .error (aggregatedError filename maxRetries lastMsg) := by
  intro fuel
  induction fuel with
  | zero => intro attempt h1 h2; omega
  | succ fuel ih =>
    intro attempt h1 h2
    obtain ⟨m, hm⟩ := hall attempt h2
    simp only [downloadAttempts, hm]
    rcases Nat.lt_or_ge (attempt + 1) maxRetries with hlt | hge
    · rw [if_neg (by omega)]
      exact ih (attempt + 1) (by omega) hlt
    · have heq : attempt = maxRetries - 1 := by omega
      subst heq
      rw [hm] at hlast
      obtain rfl : m = lastMsg := by
        injection hlast
      rw [if_pos (by omega)]

/-- C8: the retrying `downloadFile` variant retries on any failure: it
returns the payload of the first successful attempt among the first
`maxRetries` attempts, and when every attempt fails it fails with the single
aggregated error naming the file, the attempt count and the last underlying
error message.  The `src/lib/model-downloader.ts` variant performs exactly
one attempt.  (The fixed 1-second inter-attempt delay is timing behaviour and
is not modelled.) -/
theorem c8_download_retry (attempts : Nat → Except String (List Nat))
    (filename : String) (maxRetries : Nat) :
    (∀ k b, k < maxRetries → attempts k = .ok b →
      (∀ j, j < k → ∃ m, attempts j = .error m) →
      downloadFile attempts filename maxRetries = .ok b)
  ∧ (∀ lastMsg, 0 < maxRetries →
      (∀ j, j < maxRetries → ∃ m, attempts j = .error m) →
      attempts (maxRetries - 1) = .error lastMsg →
      downloadFile attempts filename maxRetries =
        .error (aggregatedError filename maxRetries lastMsg))
  ∧ downloadFileOnce attempts filename = attempts 0 := by
  refine ⟨?_, ?_, rfl⟩
  · intro k b hk hok hfail
    exact downloadAttempts_ok attempts filename maxRetries k b hk hok hfail
      maxRetries 0 (by omega) (by omega)
  · intro lastMsg hpos hall hlast
    exact downloadAttempts_err attempts filename maxRetries lastMsg hall hlast
      maxRetries 0 (by omega) hpos

/-- C8 counterexample: on a transient first-attempt failure the
`src/lib/model-downloader.ts` variant fails immediately with the raw
underlying error, while retrying (as the claim demands of every fetch) would
have succeeded on the second attempt. -/
theorem c8_counterexample :
    downloadFileOnce c8Attempts "model.onnx" = .error "HTTP error! status: 500"
  ∧ downloadFile c8Attempts "model.onnx" 3 = .ok [42]
  ∧ (Except.error "HTTP error! status: 500" : Except String (List Nat)) ≠ .ok [42] := by
  refine ⟨rfl, rfl, fun h => Except.noConfusion h⟩

theorem c8_download_retry_witness :
    downloadFile c8AttemptsAllFail "model.onnx" 3 =
      .error (aggregatedError "model.onnx" 3 "e2") :=
  (c8_download_retry c8AttemptsAllFail "model.onnx" 3).2.1 "e2" (by omega)
    (fun j _ => match j with
      | 0 => ⟨"e0", rfl⟩
      | 1 => ⟨"e1", rfl⟩
      | _ + 2 => ⟨"e2", rfl⟩) rfl

/-! ### Tokenizer round-trip lemmas and claim C2 -/

theorem matchLen_some (V : Vocab) (s : List Char) :
    ∀ n k, matchLen V s n = some k →
      1 ≤ k ∧ k ≤ n ∧ (vocabFind V (s.take k)).isSome := by
  intro n
  induction n with
  | zero => intro k h; cases h
  | succ n ih =>
    intro k h
    rw [matchLen] at h
    by_cases hv : (vocabFind V (s.take (n + 1))).isSome
    · rw [if_pos hv] at h
      injection h with h
      subst h
      exact ⟨by omega, le_rfl, hv⟩
    · rw [if_neg hv] at h
      obtain ⟨h1, h2, h3⟩ := ih k h
      exact ⟨h1, by omega, h3⟩

theorem matchLen_none (V : Vocab) (s : List Char) :
    ∀ n, matchLen V s n = none → ∀ k, 1 ≤ k → k ≤ n →
      ¬ (vocabFind V (s.take k)).isSome := by
  intro n
  induction n with
  | zero => intro _ k h1 h2 _; omega
  | succ n ih =>
    intro h k h1 h2
    rw [matchLen] at h
    by_cases hv : (vocabFind V (s.take (n + 1))).isSome
    · rw [if_pos hv] at h
      cases h
    · rw [if_neg hv] at h
      rcases Nat.lt_or_ge k (n + 1) with hlt | hge
      · exact ih h k h1 (by omega)
      · have : k = n + 1 := by omega
        subst this
        exact hv

/-- Greedy segmentation reconstructs its input: when every character of `s`
is a single-character vocabulary token, the emitted tokens concatenate back to
`s`, every emitted token is a vocabulary key, and none is empty. -/
theorem spTokenizeAux_spec (V : Vocab) :
    ∀ fuel s, s.length ≤ fuel →
      (∀ c ∈ s, (vocabFind V [c]).isSome) →
      (spTokenizeAux V fuel s).flatten = s
      ∧ ∀ t ∈ spTokenizeAux V fuel s, (vocabFind V t).isSome ∧ t ≠ [] := by
  intro fuel
  induction fuel with
  | zero =>
    intro s hlen _
    have : s = [] := List.eq_nil_of_length_eq_zero (by omega)
    subst this
    exact ⟨rfl, by simp [spTokenizeAux]⟩
  | succ fuel ih =>
    intro s hlen hchars
    rcases s with _ | ⟨c, rest⟩
    · exact ⟨rfl, by simp [spTokenizeAux]⟩
    rcases hm : matchLen V (c :: rest) (min (c :: rest).length 20) with _ | ⟨k⟩
    · exfalso
      have hmin : 1 ≤ min (c :: rest).length 20 := by
        simp [Nat.le_min]
      have h1 := matchLen_none V (c :: rest) _ hm 1 le_rfl hmin
      have : (c :: rest).take 1 = [c] := by simp
      rw [this] at h1
      exact h1 (hchars c (List.mem_cons_self c rest))
    · obtain ⟨hk1, hk2, hksome⟩ := matchLen_some V (c :: rest) _ k hm
      obtain ⟨m, rfl⟩ : ∃ m, k = m + 1 := ⟨k - 1, by omega⟩
      have hdrop : rest.drop (m + 1 - 1) = (c :: rest).drop (m + 1) := by simp
      have hlen2 : ((c :: rest).drop (m + 1)).length ≤ fuel := by
        rw [List.length_drop]
        simp only [List.length_cons] at hlen ⊢
        omega
      have hchars2 : ∀ x ∈ (c :: rest).drop (m + 1), (vocabFind V [x]).isSome :=
        fun x hx => hchars x (List.drop_subset _ _ hx)
      obtain ⟨ihflat, ihtok⟩ := ih ((c :: rest).drop (m + 1)) hlen2 hchars2
      have heq : spTokenizeAux V (fuel + 1) (c :: rest) =
          (c :: rest).take (m + 1) :: spTokenizeAux V fuel (rest.drop (m + 1 - 1)) := by
        simp only [spTokenizeAux, hm]
      rw [heq, hdrop]
      constructor
      · rw [List.flatten_cons, ihflat, List.take_append_drop]
      · intro t ht
        rcases List.mem_cons.mp ht with rfl | htl
        · refine ⟨hksome, ?_⟩
          simp [List.take_succ_cons]
        · exact ihtok t htl

theorem langLookupAux_ge (N : Nat) :
    ∀ (cs : List String) (j : Nat) (t : List Char) (i : Nat),
      langLookupAux N cs j t = some i → N + j ≤ i := by
  intro cs
  induction cs with
  | nil => intro j t i h; cases h
  | cons c cs ih =>
    intro j t i h
    rw [langLookupAux] at h
    by_cases hc : langTokenChars c = t
    · rw [if_pos hc] at h
      injection h with h
      omega
    · rw [if_neg hc] at h
      have := ih (j + 1) t i h
      omega

/-- The language id table is invertible: a token resolved through it maps back
to itself through the inverse table. -/
theorem langLookupAux_rev (N : Nat) :
    ∀ (cs : List String) (j : Nat) (t : List Char) (i : Nat),
      langLookupAux N cs j t = some i → langRevLookupAux N cs j i = some t := by
  intro cs
  induction cs with
  | nil => intro j t i h; cases h
  | cons c cs ih =>
    intro j t i h
    rw [langLookupAux] at h
    rw [langRevLookupAux]
    by_cases hc : langTokenChars c = t
    · rw [if_pos hc] at h
      injection h with h
      rw [if_pos h, hc]
    · rw [if_neg hc] at h
      have hge := langLookupAux_ge N cs (j + 1) t i h
      rw [if_neg (by omega)]
      exact ih (j + 1) t i h

theorem langRevLookupAux_none_of_lt (N : Nat) :
    ∀ (cs : List String) (j i : Nat), i < N + j → langRevLookupAux N cs j i = none := by
  intro cs
  induction cs with
  | nil => intro j i _; rfl
  | cons c cs ih =>
    intro j i hi
    rw [langRevLookupAux, if_neg (by omega)]
    exact ih (j + 1) i (by omega)

theorem vocabFind_mem (V : Vocab) (t : List Char) (v : Nat)
    (h : vocabFind V t = some v) : (t, v) ∈ V := by
  rw [vocabFind] at h
  obtain ⟨e, he, hev⟩ := Option.map_eq_some'.mp h
  have hmem := List.mem_of_find?_eq_some he
  have hpred := List.find?_some he
  simp only [decide_eq_true_eq] at hpred
  have : e = (t, v) := by
    cases e
    simp_all
  rwa [this] at hmem

theorem vocabIdFind_eq (V : Vocab) (t : List Char) (v : Nat)
    (hids : (V.map Prod.snd).Nodup) (hmem : (t, v) ∈ V) :
    vocabIdFind V v = some t := by
  rw [vocabIdFind]
  have hmemr : (t, v) ∈ V.reverse := List.mem_reverse.mpr hmem
  cases hf : List.find? (fun e => e.2 = v) V.reverse with
  | none =>
    rw [List.find?_eq_none] at hf
    exact absurd (by simp) (hf _ hmemr)
  | some e =>
    have he2 : e.2 = v := by simpa using List.find?_some hf
    have hemem : e ∈ V := List.mem_reverse.mp (List.mem_of_find?_eq_some hf)
    have heq : e = (t, v) :=
      List.inj_on_of_nodup_map hids hemem hmem (by simp [he2])
    simp [heq]

/-- A token that is a vocabulary key with a nonzero id (or a language token)
converts to an id and back to the same token, given distinct in-range ids. -/
theorem convert_roundtrip (V : Vocab)
    (hids : (V.map Prod.snd).Nodup)
    (hbound : ∀ p ∈ V, p.2 < V.length)
    (t : List Char) (hsome : (vocabFind V t).isSome) (hne : t ≠ [])
    (hnz : vocabFind V t ≠ some 0) :
    convertIdToToken V (convertTokenToId V 3 t) = t := by
  cases hl : langTokenToId V.length t with
  | some i =>
    have hid : convertTokenToId V 3 t = i := by
      simp only [convertTokenToId, hl]
    have hrev : idToLangToken V.length i = some t := by
      rw [idToLangToken]
      exact langLookupAux_rev V.length fairseqLanguageCodes 0 t i hl
    rw [hid]
    simp only [convertIdToToken, hrev]
  | none =>
    obtain ⟨v, hv⟩ := Option.isSome_iff_exists.mp hsome
    have hvnz : v ≠ 0 := fun h => hnz (h ▸ hv)
    have hid : convertTokenToId V 3 t = v := by
      simp only [convertTokenToId, hl, hv, if_pos hvnz]
    have hmem := vocabFind_mem V t v hv
    have hvlt : v < V.length := hbound _ hmem
    have hrevnone : idToLangToken V.length v = none := by
      rw [idToLangToken]
      exact langRevLookupAux_none_of_lt V.length fairseqLanguageCodes 0 v (by omega)
    rw [hid]
    simp only [convertIdToToken, hrevnone, vocabIdFind_eq V t v hids hmem]
    rw [if_pos hne]

theorem smDecode_no_skip (V : Vocab) (ids : List Nat) :
    smDecode V ids false =
      spDecode ((ids.map (convertIdToToken V)).filter (fun t => t ≠ [])) := by
  simp [smDecode]

/-- C2: the encode/decode round trip.  The claim's hypothesis (every character
of the text is a single-character vocabulary token) is not enough: the
sentinel introduced by normalization must itself be representable, and — by the
falsy id-0 lookup of C5 — no token produced by the segmentation may have id 0.
Under those amendments, with distinct in-range ids, decoding the encoded ids
with skipSpecial = false reproduces the sentinel-normalized input with the
sentinel mapped back to a literal space and surrounding whitespace trimmed. -/
theorem c2_roundtrip (V : Vocab) (text : List Char)
    (hids : (V.map Prod.snd).Nodup)
    (hbound : ∀ p ∈ V, p.2 < V.length)
    (hchars : ∀ c ∈ spNormalize text, (vocabFind V [c]).isSome)
    (hnz : ∀ t ∈ spTokenize V (spNormalize text), vocabFind V t ≠ some 0) :
    smDecode V (smEncode V text) false = jsTrim (jsReplaceSentinel (spNormalize text)) := by
  obtain ⟨hflat, htok⟩ := spTokenizeAux_spec V (spNormalize text).length
    (spNormalize text) le_rfl hchars
  rw [smDecode_no_skip, smEncode, spEncodeStr]
  rw [List.map_map]
  have hpt : ∀ t ∈ spTokenize V (spNormalize text),
      (convertIdToToken V ∘ convertTokenToId V 3) t = id t :=
    fun t ht => convert_roundtrip V hids hbound t (htok t ht).1 (htok t ht).2 (hnz t ht)
  rw [List.map_congr_left hpt, List.map_id]
  have hfil : (spTokenize V (spNormalize text)).filter (fun t => t ≠ []) =
      spTokenize V (spNormalize text) :=
    List.filter_eq_self.mpr (fun t ht => by simpa using (htok t ht).2)
  rw [hfil, spDecode]
  rw [show (spTokenize V (spNormalize text)).flatten = spNormalize text from hflat]

/-- C2 counterexample: the text `"h"` consists only of characters present in
`c2Vocab` as single-character tokens, yet — the sentinel not being in the
vocabulary — decoding the encoded ids yields `"<unk>h"` rather than the
sentinel-normalized input, refuting the claim as stated. -/
theorem c2_counterexample :
    (∀ c ∈ ("h".toList), (vocabFind c2Vocab [c]).isSome)
  ∧ smDecode c2Vocab (smEncode c2Vocab "h".toList) false ≠
      jsTrim (jsReplaceSentinel (spNormalize "h".toList)) := by decide

theorem c2_roundtrip_witness :
    smDecode c2RoundVocab (smEncode c2RoundVocab "hi there".toList) false =
      jsTrim (jsReplaceSentinel (spNormalize "hi there".toList)) :=
  c2_roundtrip c2RoundVocab "hi there".toList (by decide) (by decide) (by decide)
    (by decide)

end SmallTranslation
